import Mathlib

/-!
# Verification of the pi-kota context-governance engine

Shallow embedding, in Lean 4, of the algorithmic core of the `pi-kota`
extension: output truncation (`src/text.ts`), adaptive prune settings and
conversation pruning (`src/prune.ts`), git-HEAD staleness detection
(`src/staleness.ts` and `checkStaleness` in `src/index.ts`), the
concurrency-safe `ensureIndexed` coordinator (`src/kota/ensure.ts`), the
budgeted MCP tool invoker (`src/kota/tools.ts`) and blob-cache eviction
(`src/blobs-evict.ts`).

JavaScript numbers that the code only ever uses as integers are modelled as
`Int` (or `Nat` where the data model constrains them to be non-negative);
JavaScript strings are modelled as Lean `String`; `null`/`undefined` become
`Option`; a JS function that can throw becomes a Lean function into `Except`.
Asynchronous effects (RPC calls, filesystem calls, callbacks) are embedded by
passing the outcome of each effectful call as an explicit argument and
recording invoked callbacks as explicit boolean/list outputs.
-/

/-! ## Text truncation (`truncateChars`, src/text.ts) -/

/-- `truncateChars` from `src/text.ts`:

```ts
export function truncateChars(input: string, maxChars: number): string {
  if (maxChars <= 0) return "";
  if (input.length <= maxChars) return input;
  if (maxChars === 1) return "…";
  return input.slice(0, maxChars - 1) + "…";
}
```
`input.slice(0, maxChars - 1) + "…"` is embedded as taking the first
`maxChars - 1` characters of the string's character list and appending the
ellipsis character. -/
def truncateChars (input : String) (maxChars : Int) : String :=
  if maxChars ≤ 0 then ""
  else if (input.length : Int) ≤ maxChars then input
  else if maxChars = 1 then "…"
  else String.mk (input.data.take (maxChars - 1).toNat ++ ['…'])

/-! ## Adaptive prune settings (`computePruneSettings`, src/prune.ts) -/

/-- The pair of settings consumed by the prune engine; the data model
constrains both to non-negative integers. -/
structure PruneBase where
  keepRecentTurns : Nat
  maxToolChars : Nat
deriving DecidableEq, Repr

/-- `computePruneSettings` from `src/prune.ts`:

```ts
export function computePruneSettings(base, tokens) {
  if (!tokens) return base;
  if (tokens < 120_000) return base;
  return {
    keepRecentTurns: Math.max(1, base.keepRecentTurns - 1),
    maxToolChars: Math.max(400, Math.floor(base.maxToolChars * 0.66)),
  };
}
```
`tokens` is `number | undefined`; `!tokens` is true for `undefined` and for
`0`, both of which are covered by the `undefined`/`< 120000` branches here.
`Math.floor(m * 0.66)` is embedded as the exact integer `m * 66 / 100`
(floor division), which agrees with the double-precision computation for all
realistic magnitudes of `maxToolChars`. -/
def computePruneSettings (base : PruneBase) (tokens : Option Nat) : PruneBase :=
  match tokens with
  | none => base
  | some t =>
    if t = 0 then base
    else if t < 120000 then base
    else
      { keepRecentTurns := max 1 (base.keepRecentTurns - 1)
        maxToolChars := max 400 (base.maxToolChars * 66 / 100) }

/-! ## Conversation pruning (`pruneContextMessages`, src/prune.ts) -/

/-- A dynamic JSON-ish value stored in a message's `details` object. -/
inductive DVal where
  | b : Bool → DVal
  | n : Int → DVal
  | s : String → DVal
deriving DecidableEq, Repr

/-- One content block of a message. `type`/`text` are `Option` because the
code checks `b?.type === "text"` and `typeof block?.text === "string"`;
`none` models an absent or non-string field. -/
structure Block where
  type : Option String
  text : Option String
deriving DecidableEq, Repr

/-- A conversation message, modelling exactly the dynamic fields
`pruneContextMessages` inspects: `role`, `toolName` (when a string),
`content` (when an array) and `details` (when an object). -/
structure Msg where
  role : Option String
  toolName : Option String
  content : Option (List Block)
  details : Option (List (String × DVal))
deriving DecidableEq, Repr

/-- `isToolResult` from `src/prune.ts`: the message's `role` is
`"toolResult"` and its `toolName` is a string. -/
def isToolResult (m : Msg) : Bool :=
  m.role == some "toolResult" && m.toolName.isSome

/-- `toolText` from `src/prune.ts`: the `text` of the first content block
whose `type` is `"text"`, or `""`. -/
def toolText (m : Msg) : String :=
  match m.content with
  | none => ""
  | some blocks =>
    match blocks.find? (fun b => b.type == some "text") with
    | some b => b.text.getD ""
    | none => ""

/-- The settings argument of `pruneContextMessages`. `keepRecentTurns` and
`maxToolChars` are JS numbers (the function explicitly clamps a negative
`keepRecentTurns`), `pruneToolNames` is a `Set<string>`. -/
structure PruneOpts where
  keepRecentTurns : Int
  maxToolChars : Int
  pruneToolNames : List String
deriving DecidableEq, Repr

/-- The placeholder text written into a pruned tool result:
`` `(Pruned) ${toolName} tool output (${n} chars). ` `` followed by the
rehydration instruction. -/
def placeholderText (toolName : String) (n : Nat) : String :=
  "(Pruned) " ++ toolName ++ " tool output (" ++ toString n ++
    " chars). Rehydrate by re-running the tool with narrower parameters."

/-- JS object spread `{...old, k: v}`: any existing binding of `k` is
overridden and `k` is bound to `v`. -/
def withKey (l : List (String × DVal)) (k : String) (v : DVal) :
    List (String × DVal) :=
  l.filter (fun p => p.fst != k) ++ [(k, v)]

/-- `{...(typeof m.details === "object" && m.details !== null ? m.details : {}),
pruned: true, originalChars: n}`. -/
def prunedDetails (old : Option (List (String × DVal))) (n : Nat) :
    List (String × DVal) :=
  withKey (withKey (old.getD []) "pruned" (DVal.b true)) "originalChars" (DVal.n n)

/-- The rewritten (pruned) copy of message `m` whose tool name is `name`:
the single placeholder text block plus the `pruned`/`originalChars`
metadata, all other fields kept. -/
def placeholderMsg (m : Msg) (name : String) : Msg :=
  { m with
    content := some [⟨some "text", some (placeholderText name (toolText m).length)⟩]
    details := some (prunedDetails m.details (toolText m).length) }

/-- The body of the `messages.map((m, idx) => ...)` callback in
`pruneContextMessages`. -/
def pruneOne (opts : PruneOpts) (cutoff : Nat) (i : Nat) (m : Msg) : Msg :=
  if cutoff ≤ i then m
  else if isToolResult m = false then m
  else
    match m.toolName with
    | none => m
    | some name =>
      if opts.pruneToolNames.contains name = false then m
      else if ((toolText m).length : Int) ≤ opts.maxToolChars then m
      else placeholderMsg m name

/-- Indices of the `"user"` (turn-boundary) messages. -/
def userIndexes (msgs : List Msg) : List Nat :=
  (msgs.enum.filter (fun p => p.snd.role == some "user")).map (fun p => p.fst)

/-- `userIndexes.length > keepRecentTurns ? userIndexes[len - keep] : 0`. -/
def cutoffIndex (msgs : List Msg) (keep : Nat) : Nat :=
  let ui := userIndexes msgs
  if keep < ui.length then ui.getD (ui.length - keep) 0 else 0

/-- `messages.map((m, idx) => f(idx, m))`, as explicit index-passing
recursion starting at index `k`. -/
def mapIdxFrom (f : Nat → Msg → Msg) (k : Nat) : List Msg → List Msg
  | [] => []
  | m :: rest => f k m :: mapIdxFrom f (k + 1) rest

/-- `pruneContextMessages` from `src/prune.ts`:

```ts
const keepRecentTurns = Math.max(0, opts.keepRecentTurns);
if (keepRecentTurns === 0) return messages;
const userIndexes = ... indices of role === "user" ...;
const cutoff = userIndexes.length > keepRecentTurns
  ? userIndexes[userIndexes.length - keepRecentTurns] : 0;
return messages.map((m, idx) => { ... });
```
-/
def pruneContextMessages (msgs : List Msg) (opts : PruneOpts) : List Msg :=
  let keep := (max 0 opts.keepRecentTurns).toNat
  if keep = 0 then msgs
  else mapIdxFrom (pruneOne opts (cutoffIndex msgs keep)) 0 msgs

/-! ## Staleness detection (src/staleness.ts, `checkStaleness` in src/index.ts) -/

/-- JS falsiness of a `string | null` value: `null` and `""` are falsy. -/
def jsFalsyStr : Option String → Bool
  | none => true
  | some s => s == ""

/-- `isIndexStale` from `src/staleness.ts`:

```ts
export function isIndexStale(indexedAtCommit, currentHead) {
  if (!indexedAtCommit || !currentHead) return false;
  return indexedAtCommit !== currentHead;
}
```
-/
def isIndexStale (indexedAtCommit currentHead : Option String) : Bool :=
  if jsFalsyStr indexedAtCommit || jsFalsyStr currentHead then false
  else indexedAtCommit != currentHead

/-- The session-state fields read and written by `checkStaleness`. -/
structure StaleState where
  indexedAtCommit : Option String
  repoRoot : Option String
  stalenessWarnedForHead : Option String
deriving DecidableEq, Repr

/-- Result of one `checkStaleness` call: the updated state, whether the
`stale_detected` warning fired (log event plus `stalenessWarnedForHead`
update), and whether the UI notification was shown (`warned` gated by
`hasUI`). -/
structure StaleOut where
  state : StaleState
  warned : Bool
  notified : Bool
deriving DecidableEq, Repr

/-- `checkStaleness` from `src/index.ts` (lines 178–202). The current HEAD
commit, read from git by `getHeadCommit` (trimmed stdout, or `null` on
failure), is passed in as `head`:

```ts
if (!state.indexedAtCommit || !state.repoRoot) return;
const head = await getHeadCommit(pi, state.repoRoot);
if (!head) return;
if (state.stalenessWarnedForHead === head) return;
if (!isIndexStale(state.indexedAtCommit, head)) return;
await logger.log("index", "stale_detected", ...);
if (ctx.hasUI) { ctx.ui.notify("pi-kota: repo HEAD has changed ...", "warning"); }
state.stalenessWarnedForHead = head;
```
-/
def checkStaleness (s : StaleState) (head : Option String) (hasUI : Bool) :
    StaleOut :=
  if jsFalsyStr s.indexedAtCommit || jsFalsyStr s.repoRoot then ⟨s, false, false⟩
  else if jsFalsyStr head then ⟨s, false, false⟩
  else if s.stalenessWarnedForHead == head then ⟨s, false, false⟩
  else if isIndexStale s.indexedAtCommit head = false then ⟨s, false, false⟩
  else ⟨{ s with stalenessWarnedForHead := head }, true, hasUI⟩

/-- A sequence of staleness checks (the "already indexed" fast path runs one
per tool call), with a UI present: threads the state and collects, per call,
whether the warning fired. -/
def runChecks : StaleState → List (Option String) → StaleState × List Bool
  | s, [] => (s, [])
  | s, h :: rest =>
    let o := checkStaleness s h true
    let r := runChecks o.state rest
    (r.fst, o.warned :: r.snd)

/-- How many of the warnings collected by `runChecks` fired on a check whose
HEAD reading was `h`. -/
def warnCountFor (s : StaleState) (heads : List (Option String)) (h : String) :
    Nat :=
  ((heads.zip (runChecks s heads).snd).filter
    (fun p => p.fst == some h && p.snd)).length

/-! ## `ensureIndexed` (src/kota/ensure.ts) — sequential behaviour

```ts
export async function ensureIndexed(opts): Promise<void> {
  if (opts.state.indexed && !opts.force) return;
  if (opts.state.indexPromise) { await opts.state.indexPromise; return; }
  const run = (async () => {
    if (opts.confirmIndex) {
      const ok = await opts.confirm("Index repository?", "...");
      if (!ok) throw new Error("Indexing cancelled by user");
    }
    await opts.index();
    opts.state.indexed = true;
  })();
  opts.state.indexPromise = run;
  try { await run; } finally { opts.state.indexPromise = null; }
}
```

The sequential model below executes one call to completion with no
interleaving. The outcomes of the two awaited callbacks (`confirm` and
`index`) are passed in as arguments; whether each callback was invoked is
reported in the result. An in-flight promise found in the state is
represented by its settled outcome (the awaiter observes that outcome and
leaves the state to the promise's creator). -/

instance {α β : Type} [DecidableEq α] [DecidableEq β] :
    DecidableEq (Except α β) := fun a b =>
  match a, b with
  | .ok x, .ok y =>
    if h : x = y then isTrue (by rw [h]) else isFalse (fun hh => h (Except.ok.inj hh))
  | .error x, .error y =>
    if h : x = y then isTrue (by rw [h]) else isFalse (fun hh => h (Except.error.inj hh))
  | .ok _, .error _ => isFalse (fun hh => Except.noConfusion hh)
  | .error _, .ok _ => isFalse (fun hh => Except.noConfusion hh)

/-- The `{isIndexed, inFlightFuture}` slice of session state that
`ensureIndexed` consumes (via the getter/setter adapter in `src/index.ts`). -/
structure EnsState where
  indexed : Bool
  indexPromise : Option (Except String Unit)
deriving DecidableEq, Repr

/-- Result of one sequential `ensureIndexed` call. -/
structure EnsResult where
  result : Except String Unit
  state : EnsState
  confirmCalled : Bool
  indexCalled : Bool
deriving DecidableEq, Repr

/-- Sequential (single-caller, run-to-completion) embedding of
`ensureIndexed`. `confirmAnswer` is the value the `confirm` callback would
resolve to, `indexResult` the outcome the `index()` callback would settle
with; each is consulted only if the corresponding callback is reached. -/
def ensureIndexedRun (st : EnsState) (confirmIndex : Bool)
    (confirmAnswer : Bool) (indexResult : Except String Unit)
    (force : Bool) : EnsResult :=
  if st.indexed && !force then ⟨.ok (), st, false, false⟩
  else
    match st.indexPromise with
    | some prior => ⟨prior, st, false, false⟩
    | none =>
      if confirmIndex && !confirmAnswer then
        ⟨.error "Indexing cancelled by user",
          { st with indexPromise := none }, true, false⟩
      else
        match indexResult with
        | .ok _ =>
          ⟨.ok (), { indexed := true, indexPromise := none }, confirmIndex, true⟩
        | .error e =>
          ⟨.error e, { st with indexPromise := none }, confirmIndex, true⟩

/-! ## `ensureIndexed` — concurrent behaviour

A small-step interleaving semantics for `n` logically concurrent
`ensureIndexed` callers sharing one state, for the claim's scenario of a
confirmation-free call (`confirmIndex = false`, so each launched run invokes
the supplied `index` function exactly once, at launch). The host is
single-threaded and event-driven: each caller executes atomically between
`await` points, and the scheduler chooses which suspended caller resumes.

Atomic segments of one `ensureIndexed` caller:
* entry (everything up to suspending on a promise): checks `state.indexed`,
  then `state.indexPromise`; either returns immediately, joins the in-flight
  promise, or creates the run promise — invoking `opts.index()` — and
  publishes it in `state.indexPromise` before any other caller can run;
* settlement of the run promise (the tail of the async body after
  `await opts.index()`): on success sets `state.indexed = true`;
* resumption of an awaiter once the awaited promise has settled; the
  creator's `finally` clears `state.indexPromise`. -/

/-- Outcome a promise settles with. -/
inductive Outcome where
  | success : Outcome
  | failure : String → Outcome
deriving DecidableEq, Repr

/-- Control state of one caller. `waiting p isCreator`: suspended on promise
`p`; the creator additionally runs the `finally` that clears
`state.indexPromise` when it resumes. -/
inductive PC where
  | start : PC
  | waiting : Nat → Bool → PC
  | done : Outcome → PC
deriving DecidableEq, Repr

/-- Global configuration: per-caller control states, the shared
`indexed`/`indexPromise` fields, the settled promises, and how many run
promises were created (= how many times `opts.index()` was invoked, since
`confirmIndex = false`). -/
structure Conc where
  pcs : List PC
  indexed : Bool
  inflight : Option Nat
  settled : List (Nat × Outcome)
  created : Nat
deriving DecidableEq, Repr

/-- Scheduler actions: `step i` runs caller `i`'s next atomic segment;
`settle p o` settles created-but-unsettled promise `p` with outcome `o`
(the tail of the async body resuming after `await opts.index()`). -/
inductive Act where
  | step : Nat → Act
  | settle : Nat → Outcome → Act
deriving DecidableEq, Repr

/-- One atomic step; `none` when the action is not enabled (caller out of
range or suspended on an unsettled promise, promise unknown or already
settled). -/
def execAct (c : Conc) (a : Act) : Option Conc :=
  match a with
  | .step i =>
    match c.pcs.get? i with
    | none => none
    | some PC.start =>
      if c.indexed then some { c with pcs := c.pcs.set i (PC.done .success) }
      else
        match c.inflight with
        | some p => some { c with pcs := c.pcs.set i (PC.waiting p false) }
        | none =>
          some { c with
            pcs := c.pcs.set i (PC.waiting c.created true)
            inflight := some c.created
            created := c.created + 1 }
    | some (PC.waiting p isCreator) =>
      match c.settled.lookup p with
      | none => none
      | some o =>
        some { c with
          pcs := c.pcs.set i (PC.done o)
          inflight := if isCreator then none else c.inflight }
    | some (PC.done _) => none
  | .settle p o =>
    if p < c.created && (c.settled.lookup p).isNone then
      some { c with
        settled := (p, o) :: c.settled
        indexed := match o with | .success => true | .failure _ => c.indexed }
    else none

/-- `n` callers against the not-yet-indexed shared state. -/
def initConc (n : Nat) : Conc :=
  ⟨List.replicate n PC.start, false, none, [], 0⟩

/-- Run a whole schedule; `none` if any action is not enabled. -/
def execTrace : Conc → List Act → Option Conc
  | c, [] => some c
  | c, a :: rest =>
    match execAct c a with
    | some c2 => execTrace c2 rest
    | none => none

/-- No promise settles anywhere in the schedule. -/
def noSettle (acts : List Act) : Bool :=
  acts.all (fun a => match a with | .settle _ _ => false | .step _ => true)

/-- Every caller has executed its entry segment. -/
def allStarted (c : Conc) : Bool :=
  c.pcs.all (fun pc => pc != PC.start)

/-- Every caller has returned. -/
def allDone (c : Conc) : Bool :=
  c.pcs.all (fun pc => match pc with | PC.done _ => true | _ => false)

/-! ## Budgeted tool invocation (`callBudgeted`, src/kota/tools.ts) -/

/-- A thrown JS error as the classifier sees it: an optional
machine-readable `code` property and the `message`. -/
structure JsErr where
  code : Option String
  message : String
deriving DecidableEq, Repr

/-- `toTextContent` from `src/kota/mcp.ts`: join the `text` of all blocks
with `type === "text"` and a string `text` with newlines. -/
def toTextContent (content : Option (List Block)) : String :=
  match content with
  | none => ""
  | some blocks =>
    String.intercalate "\n"
      ((blocks.filter (fun b => b.type == some "text" && b.text.isSome)).map
        (fun b => b.text.getD ""))

/-- The static short-name → MCP-method table from `src/kota/tools.ts`. -/
def toolNameMap : List (String × String) :=
  [("index", "index_repository"), ("deps", "search_dependencies"),
   ("usages", "find_usages"), ("impact", "analyze_change_impact"),
   ("task_context", "generate_task_context")]

/-- `resolveMcpToolName`: mapped name, or the name unchanged. -/
def resolveMcpToolName (toolName : String) : String :=
  (toolNameMap.lookup toolName).getD toolName

/-- `formatToolError` from `src/kota/tools.ts`: failing tool name, error
message, available-tools list (or `"(none)"`), and the remediation hint,
joined with newlines. -/
def formatToolError (toolName : String) (availableTools : List String)
    (errMessage : String) : String :=
  String.intercalate "\n"
    ["kota: failed to call MCP tool \"" ++ toolName ++ "\"",
     "error: " ++ errMessage,
     "Available MCP tools: " ++
       (if availableTools.isEmpty then "(none)"
        else String.intercalate ", " availableTools),
     "Hint: ensure bun is installed and KotaDB starts with --toolset core."]

/-- Modelled from the spec: the transport-error set used by `callBudgeted`'s
error classifier. The current `src/kota/tools.ts` (with transport
classification) is not present in the source snapshot — only an older
revision without it, its unit tests, and its caller are — so the known
machine-readable codes are taken from the spec ("broken pipe, connection
reset, destroyed stream") and the repository's tests (`EPIPE`,
`ECONNRESET`, `ERR_STREAM_DESTROYED`). -/
def transportCodes : List String :=
  ["EPIPE", "ECONNRESET", "ERR_STREAM_DESTROYED"]

/-- Modelled from the spec: the broken-pipe message pattern of the
classifier ("the message matches a broken-pipe pattern"): the message
mentions `EPIPE`. -/
def brokenPipeMsg (msg : String) : Bool :=
  (msg.splitOn "EPIPE").length > 1

/-- Modelled from the spec: `callBudgeted`'s error classifier — the error's
machine-readable code is in the known transport set, or its message matches
the broken-pipe pattern. -/
def isTransportError (e : JsErr) : Bool :=
  (match e.code with
   | some c => transportCodes.contains c
   | none => false) || brokenPipeMsg e.message

/-- What one `callBudgeted` invocation returned and which of its callback
arguments it invoked. -/
structure CallOutput where
  text : String
  ok : Bool
  transportCbInvoked : Bool
  listToolsInvoked : Bool
deriving DecidableEq, Repr

/-- Modelled from the spec: `callBudgeted` from the current
`src/kota/tools.ts`, which is missing from the source snapshot (the snapshot
holds an older revision without transport classification; the behaviour
below follows spec §4.2 and is pinned by the repository's own
`kota-tools.test.ts` and by the caller in `src/index.ts`, which passes an
`onTransportError` callback).

The outcome of the underlying `callTool` invocation is passed in as
`callResult`: on success, the MCP content blocks plus the pretty-printed
JSON rendering of the raw result used as fallback when no text blocks are
present; on failure, the thrown error. `listToolsResult` is the outcome
`listTools()` would produce if invoked (its own failure is swallowed as an
empty list).

* Success: extract text content (or the JSON fallback when it is empty) and
  truncate to the budget; `ok: true`.
* Transport error (code in the known set or broken-pipe message): invoke
  `onTransportError`, skip `listTools` entirely, and format the error with
  an empty available-tools list.
* Any other error: invoke `listTools()` (failure → empty list) and format
  the error with the available tools.
* In both failure cases truncate the message to the budget and return
  `ok: false`. -/
def callBudgeted (toolName : String) (maxChars : Int)
    (callResult : Except JsErr (Option (List Block) × String))
    (listToolsResult : Except JsErr (List String)) : CallOutput :=
  match callResult with
  | .ok (content, rawJson) =>
    let text := toTextContent content
    ⟨truncateChars (if text == "" then rawJson else text) maxChars,
      true, false, false⟩
  | .error e =>
    if isTransportError e then
      ⟨truncateChars (formatToolError toolName [] e.message) maxChars,
        false, true, false⟩
    else
      let available := match listToolsResult with
        | .ok l => l
        | .error _ => []
      ⟨truncateChars (formatToolError toolName available e.message) maxChars,
        false, false, true⟩

/-! ## Blob eviction (`evictBlobs`, src/blobs-evict.ts) -/

/-- A filesystem error (`code` as in Node's `errno` codes). -/
structure FsError where
  code : Option String
  message : String
deriving DecidableEq, Repr

/-- What `stat` reports for a directory entry. -/
structure FileStat where
  isFile : Bool
  mtimeMs : Int
  size : Nat
deriving DecidableEq, Repr

/-- One directory entry as the eviction pass sees it: its name, the outcome
of `stat`ing it (`error` = unreadable, skipped), and whether `unlink`ing it
would succeed. -/
structure FileEntry where
  name : String
  statResult : Except Unit FileStat
  unlinkOk : Bool
deriving DecidableEq, Repr

/-- `{ fullPath, mtimeMs, size }` for a regular file, plus the embedded
unlink outcome. -/
structure FileInfo where
  name : String
  mtimeMs : Int
  size : Nat
  unlinkOk : Bool
deriving DecidableEq, Repr

/-- The eviction result, instrumented with the names of the files whose
`unlink` succeeded (in unlink order); the source returns only
`{removedCount, removedBytes}`. -/
structure EvictOut where
  removedCount : Nat
  removedBytes : Nat
  removedNames : List String
deriving DecidableEq, Repr

/-- Pass 1 (age): delete every file older than `maxAgeMs`; a failed unlink
leaves the file as a survivor. Returns (removedCount, removedBytes,
removedNames, survivors), survivors in directory order. -/
def passAge (now maxAgeMs : Int) :
    List FileInfo → Nat × Nat × List String × List FileInfo
  | [] => (0, 0, [], [])
  | f :: rest =>
    let r := passAge now maxAgeMs rest
    if now - f.mtimeMs > maxAgeMs then
      if f.unlinkOk then (r.1 + 1, r.2.1 + f.size, f.name :: r.2.2.1, r.2.2.2)
      else (r.1, r.2.1, r.2.2.1, f :: r.2.2.2)
    else (r.1, r.2.1, r.2.2.1, f :: r.2.2.2)

/-- Stable insertion by ascending `mtimeMs` (a later element is placed after
earlier elements with equal `mtimeMs`), matching the stable
`survivors.sort((a, b) => a.mtimeMs - b.mtimeMs)`. -/
def insertByMtime (f : FileInfo) : List FileInfo → List FileInfo
  | [] => [f]
  | g :: rest =>
    if g.mtimeMs ≤ f.mtimeMs then g :: insertByMtime f rest
    else f :: g :: rest

/-- Stable sort of the survivors, oldest first. -/
def sortByMtime : List FileInfo → List FileInfo
  | [] => []
  | f :: rest => insertByMtime f (sortByMtime rest)

/-- Pass 2 (size): while the running total exceeds `maxSizeBytes`, delete
the oldest remaining file and subtract its size; stop as soon as the budget
is satisfied; a failed unlink is skipped (total unchanged). -/
def passSize (maxSizeBytes : Int) : Int → List FileInfo → Nat × Nat × List String
  | _, [] => (0, 0, [])
  | total, f :: rest =>
    if total ≤ maxSizeBytes then (0, 0, [])
    else if f.unlinkOk then
      let r := passSize maxSizeBytes (total - (f.size : Int)) rest
      (r.1 + 1, r.2.1 + f.size, f.name :: r.2.2)
    else passSize maxSizeBytes total rest

/-- The `{fullPath, mtimeMs, size}` records of the regular files among the
readable entries (unreadable entries are skipped). -/
def regularFiles (entries : List FileEntry) : List FileInfo :=
  entries.filterMap (fun ent =>
    match ent.statResult with
    | .ok s => if s.isFile then some ⟨ent.name, s.mtimeMs, s.size, ent.unlinkOk⟩ else none
    | .error _ => none)

/-- `evictBlobs` from `src/blobs-evict.ts`. The outcome of `readdir(dir)` is
passed in as `dirList`; an `ENOENT` failure yields `{0, 0}`, any other
`readdir` failure is rethrown (`throw e`). `now` is `Date.now()`;
`maxAgeMs = maxAgeDays * 86_400_000`. -/
def evictBlobs (dirList : Except FsError (List FileEntry)) (now : Int)
    (maxAgeDays : Int) (maxSizeBytes : Int) : Except FsError EvictOut :=
  match dirList with
  | .error e => if e.code == some "ENOENT" then .ok ⟨0, 0, []⟩ else .error e
  | .ok entries =>
    if entries.isEmpty then .ok ⟨0, 0, []⟩
    else
      let maxAgeMs := maxAgeDays * 86400000
      let files := regularFiles entries
      let p1 := passAge now maxAgeMs files
      let survivors := sortByMtime p1.2.2.2
      let total : Int := (survivors.map (fun f => (f.size : Int))).sum
      let p2 := passSize maxSizeBytes total survivors
      .ok ⟨p1.1 + p2.1, p1.2.1 + p2.2.1, p1.2.2.1 ++ p2.2.2⟩

/-- The `/kota evict-blobs` command body around `evictBlobs`
(src/index.ts lines 413–435): a successful eviction is reported as an info
notification, a thrown eviction error is caught and reported as a warning
notification — it never propagates past the command. Returns the
notification text. -/
def evictBlobsCommandNotify (dirList : Except FsError (List FileEntry))
    (now maxAgeDays maxSizeBytes : Int) : String :=
  match evictBlobs dirList now maxAgeDays maxSizeBytes with
  | .ok r =>
    "Evicted " ++ toString r.removedCount ++ " blobs (" ++
      toString r.removedBytes ++ " bytes)."
  | .error e => "Blob eviction failed: " ++ e.message

/-! Concrete messages exercising the pruning paths: a long `read` tool
result, then two user turns. With `keepRecentTurns = 1` the cutoff is the
second user message (index 2), so the tool result at index 0 is pruned. -/

def sampleToolMsg : Msg :=
  ⟨some "toolResult", some "read", some [⟨some "text", some "0123456789"⟩], some []⟩

def sampleMsgs : List Msg :=
  [sampleToolMsg, ⟨some "user", none, none, none⟩, ⟨some "user", none, none, none⟩]

def sampleOpts : PruneOpts := ⟨1, 5, ["read", "bash", "kota_search"]⟩

/-- Invariant holding while no promise has settled: nothing is indexed,
nothing is settled, and either no run was launched (everyone still at
`start`) or exactly one run — promise `0` — was launched and is in flight,
with every caller either at `start` or waiting on promise `0`. -/
def InvPre (c : Conc) : Prop :=
  c.pcs ≠ [] ∧ c.indexed = false ∧ c.settled = [] ∧
  ((c.created = 0 ∧ c.inflight = none ∧ ∀ pc ∈ c.pcs, pc = PC.start) ∨
   (c.created = 1 ∧ c.inflight = some 0 ∧
     ∀ pc ∈ c.pcs, pc = PC.start ∨ ∃ b, pc = PC.waiting 0 b))

/-- Invariant holding once every caller has entered: exactly one run was
ever launched (promise `0`); the settled list is empty or the single entry
for promise `0`; and every caller is waiting on promise `0` or done with
the outcome promise `0` settled with. -/
def InvPost (c : Conc) : Prop :=
  c.pcs ≠ [] ∧ c.created = 1 ∧
  (c.settled = [] ∨ ∃ o, c.settled = [(0, o)]) ∧
  ∀ pc ∈ c.pcs, (∃ b, pc = PC.waiting 0 b) ∨
    ∃ o, pc = PC.done o ∧ c.settled.lookup 0 = some o

/-! ## Helper lemmas -/

lemma string_mk_length (l : List Char) : (String.mk l).length = l.length := rfl

lemma string_len_zero (s : String) (h : s.length = 0) : s = "" := by
  cases s with
  | mk d =>
    have hd : d = [] := List.length_eq_zero.mp h
    simp [hd]

/-! ## C3 — truncation contract -/

/-- C3: for every input string and integer budget, `truncateChars` returns
`""` when the budget is ≤ 0; the input unchanged when it fits; exactly the
ellipsis when the budget is 1 and the input is longer; and otherwise the
first `maxChars - 1` characters followed by the ellipsis, of length exactly
`maxChars`. -/
theorem truncateChars_spec (input : String) (maxChars : Int) :
    (maxChars ≤ 0 → truncateChars input maxChars = "") ∧
    ((input.length : Int) ≤ maxChars → truncateChars input maxChars = input) ∧
    (maxChars = 1 → 1 < input.length → truncateChars input maxChars = "…") ∧
    (1 < maxChars → maxChars < (input.length : Int) →
      (truncateChars input maxChars).length = maxChars.toNat ∧
      truncateChars input maxChars =
        String.mk (input.data.take (maxChars - 1).toNat ++ ['…'])) := by
  refine ⟨?_, ?_, ?_, ?_⟩
  · intro h
    simp [truncateChars, h]
  · intro h
    by_cases h0 : maxChars ≤ 0
    · have hlen : input.length = 0 := by omega
      rw [string_len_zero input hlen]
      simp [truncateChars, h0]
    · simp [truncateChars, h0, h]
  · intro h1 hlen
    subst h1
    have hf : ¬ (input.length : Int) ≤ 1 := by omega
    simp [truncateChars, hf]
  · intro h1 hlen
    have h0 : ¬ maxChars ≤ 0 := by omega
    have hf : ¬ (input.length : Int) ≤ maxChars := by omega
    have hne : ¬ maxChars = 1 := by omega
    have heq : truncateChars input maxChars =
        String.mk (input.data.take (maxChars - 1).toNat ++ ['…']) := by
      simp [truncateChars, h0, hf, hne]
    refine ⟨?_, heq⟩
    rw [heq, string_mk_length, List.length_append, List.length_take]
    have hdata : input.data.length = input.length := rfl
    rw [hdata]
    simp only [List.length_singleton]
    omega

/-- Witness for C3 at a concrete input. -/
theorem truncateChars_spec_witness :
    (truncateChars "abcdefgh" 5).length = 5 ∧
    truncateChars "abcdefgh" 5 = String.mk ("abcdefgh".data.take 4 ++ ['…']) := by
  have h := (truncateChars_spec "abcdefgh" 5).2.2.2 (by decide) (by decide)
  exact ⟨h.1, h.2⟩

/-! ## C4 — adaptive prune settings -/

/-- C4: `computePruneSettings` returns the base settings unchanged for an
unknown token count or one below 120 000; at or above the threshold it
tightens `keepRecentTurns` to `max 1 (k - 1)` and `maxToolChars` to
`max 400 ⌊m * 0.66⌋`; in particular `{2, 1200}` at exactly 120 000 tokens
yields `{1, 792}`. -/
theorem computePruneSettings_spec (base : PruneBase) (tokens : Option Nat) :
    (tokens = none → computePruneSettings base tokens = base) ∧
    (∀ t, tokens = some t → t < 120000 → computePruneSettings base tokens = base) ∧
    (∀ t, tokens = some t → 120000 ≤ t →
      computePruneSettings base tokens =
        ⟨max 1 (base.keepRecentTurns - 1), max 400 (base.maxToolChars * 66 / 100)⟩) ∧
    computePruneSettings ⟨2, 1200⟩ (some 120000) = ⟨1, 792⟩ := by
  refine ⟨?_, ?_, ?_, by decide⟩
  · intro h
    simp [computePruneSettings, h]
  · intro t ht hlt
    subst ht
    by_cases h0 : t = 0 <;> simp [computePruneSettings, h0, hlt]
  · intro t ht hge
    subst ht
    have h0 : ¬ t = 0 := by omega
    have hlt : ¬ t < 120000 := by omega
    simp [computePruneSettings, h0, hlt]

/-- Witness for C4 at concrete inputs. -/
theorem computePruneSettings_spec_witness :
    computePruneSettings ⟨2, 1200⟩ (some 119999) = ⟨2, 1200⟩ ∧
    computePruneSettings ⟨5, 1000⟩ (some 130000) =
      ⟨max 1 (5 - 1), max 400 (1000 * 66 / 100)⟩ := by
  exact ⟨(computePruneSettings_spec ⟨2, 1200⟩ (some 119999)).2.1 119999 rfl (by decide),
    (computePruneSettings_spec ⟨5, 1000⟩ (some 130000)).2.2.1 130000 rfl (by decide)⟩

/-! ## Pruning lemmas (C5, C10) -/

lemma mapIdxFrom_get? (f : Nat → Msg → Msg) :
    ∀ (l : List Msg) (k i : Nat),
      (mapIdxFrom f k l).get? i = (l.get? i).map (f (k + i)) := by
  intro l
  induction l with
  | nil => intro k i; simp [mapIdxFrom]
  | cons m rest ih =>
    intro k i
    cases i with
    | zero => simp [mapIdxFrom]
    | succ j =>
      show (mapIdxFrom f (k + 1) rest).get? j =
        Option.map (f (k + (j + 1))) (rest.get? j)
      rw [ih (k + 1) j]
      have harith : k + 1 + j = k + (j + 1) := by omega
      rw [harith]

lemma mapIdxFrom_length (f : Nat → Msg → Msg) :
    ∀ (l : List Msg) (k : Nat), (mapIdxFrom f k l).length = l.length := by
  intro l
  induction l with
  | nil => intro k; rfl
  | cons m rest ih => intro k; simp [mapIdxFrom, ih]

lemma cutoffIndex_zero (msgs : List Msg) : cutoffIndex msgs 0 = 0 := by
  unfold cutoffIndex
  by_cases h : 0 < (userIndexes msgs).length
  · simp only [h, if_true, Nat.sub_zero]
    unfold List.getD
    rw [List.get?_eq_none.mpr (le_refl _)]
    rfl
  · simp [h]

lemma pruneOne_id_of_cutoff_le (opts : PruneOpts) (cutoff i : Nat) (m : Msg)
    (h : cutoff ≤ i) : pruneOne opts cutoff i m = m := by
  simp [pruneOne, h]

lemma pruneOne_id_of_small (opts : PruneOpts) (cutoff i : Nat) (m : Msg)
    (h : ((toolText m).length : Int) ≤ opts.maxToolChars) :
    pruneOne opts cutoff i m = m := by
  by_cases h1 : cutoff ≤ i
  · simp [pruneOne, h1]
  · by_cases h2 : isToolResult m = false
    · simp [pruneOne, h1, h2]
    · cases hname : m.toolName with
      | none => simp [pruneOne, h1, h2, hname]
      | some name =>
        by_cases h3 : name ∈ opts.pruneToolNames
        · simp [pruneOne, h1, h2, hname, h3, h]
        · simp [pruneOne, h1, h2, hname, h3]

lemma pruneOne_placeholder (opts : PruneOpts) (cutoff i : Nat) (m : Msg)
    (name : String) (h1 : i < cutoff) (h2 : m.role = some "toolResult")
    (h3 : m.toolName = some name)
    (h4 : opts.pruneToolNames.contains name = true)
    (h5 : opts.maxToolChars < ((toolText m).length : Int)) :
    pruneOne opts cutoff i m = placeholderMsg m name := by
  have hc : ¬ cutoff ≤ i := by omega
  have htr : isToolResult m = true := by simp [isToolResult, h2, h3]
  have hm : name ∈ opts.pruneToolNames := by simpa using h4
  simp [pruneOne, hc, htr, h3, hm, not_le.mpr h5]

lemma pruneOne_cases (opts : PruneOpts) (cutoff i : Nat) (m : Msg) :
    pruneOne opts cutoff i m = m ∨
      ∃ name, m.toolName = some name ∧
        pruneOne opts cutoff i m = placeholderMsg m name := by
  by_cases h1 : cutoff ≤ i
  · exact Or.inl (pruneOne_id_of_cutoff_le opts cutoff i m h1)
  · by_cases h2 : isToolResult m = false
    · exact Or.inl (by simp [pruneOne, h1, h2])
    · cases hname : m.toolName with
      | none => exact Or.inl (by simp [pruneOne, h1, h2, hname])
      | some name =>
        by_cases h3 : name ∈ opts.pruneToolNames
        · by_cases h4 : ((toolText m).length : Int) ≤ opts.maxToolChars
          · exact Or.inl (pruneOne_id_of_small opts cutoff i m h4)
          · exact Or.inr ⟨name, rfl, by simp [pruneOne, h1, h2, hname, h3, h4]⟩
        · exact Or.inl (by simp [pruneOne, h1, h2, hname, h3])

/-! ## C5 — pruning contract -/

/-- C5: `pruneContextMessages` never touches messages at or after the
cutoff (the last `keepRecentTurns` user turns), never touches a message
whose tool text fits in `maxToolChars`, always replaces a matching
over-budget tool result strictly before the cutoff with the placeholder
(which names the tool and carries `pruned`/`originalChars` metadata), and
returns the list unchanged when `keepRecentTurns ≤ 0`. -/
theorem pruneContextMessages_spec (msgs : List Msg) (opts : PruneOpts) :
    (opts.keepRecentTurns ≤ 0 → pruneContextMessages msgs opts = msgs) ∧
    (∀ i, cutoffIndex msgs (max 0 opts.keepRecentTurns).toNat ≤ i →
      (pruneContextMessages msgs opts).get? i = msgs.get? i) ∧
    (∀ i m, msgs.get? i = some m →
      ((toolText m).length : Int) ≤ opts.maxToolChars →
      (pruneContextMessages msgs opts).get? i = some m) ∧
    (∀ i m name, msgs.get? i = some m →
      i < cutoffIndex msgs (max 0 opts.keepRecentTurns).toNat →
      m.role = some "toolResult" → m.toolName = some name →
      opts.pruneToolNames.contains name = true →
      opts.maxToolChars < ((toolText m).length : Int) →
      (pruneContextMessages msgs opts).get? i = some (placeholderMsg m name)) := by
  by_cases hk : (max 0 opts.keepRecentTurns).toNat = 0
  · have hres : pruneContextMessages msgs opts = msgs := by
      simp [pruneContextMessages, hk]
    refine ⟨fun _ => hres, fun i _ => by rw [hres], fun i m hm _ => by rw [hres, hm], ?_⟩
    intro i m name hm hcut
    rw [hk, cutoffIndex_zero] at hcut
    omega
  · have hres : pruneContextMessages msgs opts =
        mapIdxFrom (pruneOne opts
          (cutoffIndex msgs (max 0 opts.keepRecentTurns).toNat)) 0 msgs := by
      simp [pruneContextMessages, hk]
    refine ⟨?_, ?_, ?_, ?_⟩
    · intro hle
      have : (max 0 opts.keepRecentTurns).toNat = 0 := by
        rw [max_eq_left hle]
        rfl
      exact absurd this hk
    · intro i hcut
      rw [hres, mapIdxFrom_get? _ msgs 0 i]
      cases hm : msgs.get? i with
      | none => rfl
      | some m =>
        simp only [Option.map_some']
        rw [pruneOne_id_of_cutoff_le _ _ _ _ (by omega)]
    · intro i m hm hsmall
      rw [hres, mapIdxFrom_get? _ msgs 0 i, hm]
      simp only [Option.map_some']
      rw [pruneOne_id_of_small _ _ _ _ hsmall]
    · intro i m name hm hcut hrole hname hcontains hbig
      rw [hres, mapIdxFrom_get? _ msgs 0 i, hm]
      simp only [Option.map_some']
      rw [pruneOne_placeholder _ _ _ _ name (by omega) hrole hname hcontains hbig]

/-! ## C10 — pruning preserves list shape -/

/-- C10: the pruned list has exactly the input's length, and each output
element is either the input message at that index, unchanged, or the
placeholder rewrite of that same message — pruning never drops, inserts or
reorders messages. -/
theorem pruneContextMessages_shape (msgs : List Msg) (opts : PruneOpts) :
    (pruneContextMessages msgs opts).length = msgs.length ∧
    (∀ i m, msgs.get? i = some m →
      (pruneContextMessages msgs opts).get? i = some m ∨
      ∃ name, m.toolName = some name ∧
        (pruneContextMessages msgs opts).get? i = some (placeholderMsg m name)) := by
  by_cases hk : (max 0 opts.keepRecentTurns).toNat = 0
  · have hres : pruneContextMessages msgs opts = msgs := by
      simp [pruneContextMessages, hk]
    exact ⟨by rw [hres], fun i m hm => Or.inl (by rw [hres, hm])⟩
  · have hres : pruneContextMessages msgs opts =
        mapIdxFrom (pruneOne opts
          (cutoffIndex msgs (max 0 opts.keepRecentTurns).toNat)) 0 msgs := by
      simp [pruneContextMessages, hk]
    constructor
    · rw [hres, mapIdxFrom_length]
    · intro i m hm
      rw [hres, mapIdxFrom_get? _ msgs 0 i, hm]
      simp only [Option.map_some']
      rcases pruneOne_cases opts
          (cutoffIndex msgs (max 0 opts.keepRecentTurns).toNat) (0 + i) m with
        h | ⟨name, hname, h⟩
      · exact Or.inl (by rw [h])
      · exact Or.inr ⟨name, hname, by rw [h]⟩

/-- Witness for C5 at a concrete message list. -/
theorem pruneContextMessages_spec_witness :
    (pruneContextMessages sampleMsgs sampleOpts).get? 2 = sampleMsgs.get? 2 ∧
    (pruneContextMessages sampleMsgs sampleOpts).get? 0 =
      some (placeholderMsg sampleToolMsg "read") := by
  refine ⟨(pruneContextMessages_spec sampleMsgs sampleOpts).2.1 2 (by decide), ?_⟩
  exact (pruneContextMessages_spec sampleMsgs sampleOpts).2.2.2 0 sampleToolMsg "read"
    rfl (by decide) rfl rfl (by decide) (by decide)

/-- Witness for C10 at a concrete message list. -/
theorem pruneContextMessages_shape_witness :
    (pruneContextMessages sampleMsgs sampleOpts).length = sampleMsgs.length ∧
    ((pruneContextMessages sampleMsgs sampleOpts).get? 0 = some sampleToolMsg ∨
      ∃ name, sampleToolMsg.toolName = some name ∧
        (pruneContextMessages sampleMsgs sampleOpts).get? 0 =
          some (placeholderMsg sampleToolMsg name)) :=
  ⟨(pruneContextMessages_shape sampleMsgs sampleOpts).1,
    (pruneContextMessages_shape sampleMsgs sampleOpts).2 0 sampleToolMsg rfl⟩

/-! ## C6 — staleness warning discipline -/

lemma checkStaleness_noop_of_warnedFor (s : StaleState) (head : Option String)
    (u : Bool) (h : (s.stalenessWarnedForHead == head) = true) :
    checkStaleness s head u = ⟨s, false, false⟩ := by
  unfold checkStaleness
  by_cases h1 : (jsFalsyStr s.indexedAtCommit || jsFalsyStr s.repoRoot) = true
  · simp [h1]
  · by_cases h2 : jsFalsyStr head = true
    · simp [h1, h2]
    · simp [h1, h2, h]

lemma checkStaleness_warned_sets (s : StaleState) (head : Option String)
    (u : Bool) (h : (checkStaleness s head u).warned = true) :
    (checkStaleness s head u).state.stalenessWarnedForHead = head := by
  unfold checkStaleness at h ⊢
  by_cases h1 : (jsFalsyStr s.indexedAtCommit || jsFalsyStr s.repoRoot) = true
  · simp [h1] at h
  · by_cases h2 : jsFalsyStr head = true
    · simp [h1, h2] at h
    · by_cases h3 : (s.stalenessWarnedForHead == head) = true
      · simp [h1, h2, h3] at h
      · by_cases h4 : isIndexStale s.indexedAtCommit head = false
        · simp [h1, h2, h3, h4] at h
        · simp [h1, h2, h3, h4]

/-- C6, counterexample: with the index taken at commit `C`, the HEAD
sequence `A, B, A` fires a warning on every check — in particular the
warning for HEAD `A` fires twice, so a warning does not fire at most once
per distinct HEAD value across a sequence of checks. -/
theorem checkStaleness_counterexample :
    warnCountFor ⟨some "C", some "/r", none⟩
      [some "A", some "B", some "A"] "A" = 2 ∧
    (runChecks ⟨some "C", some "/r", none⟩
      [some "A", some "B", some "A"]).snd = [true, true, true] := by
  constructor <;> rfl

lemma runChecks_no_warn (head : Option String) :
    ∀ (k : Nat) (s1 : StaleState), s1.stalenessWarnedForHead = head →
      (runChecks s1 (List.replicate k head)).snd.all (fun w => w == false) = true := by
  intro k
  induction k with
  | zero => intro s1 h; rfl
  | succ j ih =>
    intro s1 h
    have hbeq : (s1.stalenessWarnedForHead == head) = true := by
      rw [h]
      simp
    have hnoop := checkStaleness_noop_of_warnedFor s1 head true hbeq
    show (runChecks s1 (head :: List.replicate j head)).snd.all
      (fun w => w == false) = true
    unfold runChecks
    rw [hnoop]
    show (false :: (runChecks s1 (List.replicate j head)).snd).all
      (fun w => w == false) = true
    rw [List.all_cons, ih s1 h]
    rfl

/-- C6, amended: no warning fires when HEAD is unreadable (or empty) or
when HEAD equals the indexed-at commit; and once a warning has fired for a
given HEAD, no further warning fires across any run of subsequent checks
that keep reading that same HEAD (the tracker remembers only the most
recently warned HEAD, so a warning for the same HEAD can recur after a
warning for a different HEAD intervenes). -/
theorem checkStaleness_amended :
    (∀ s head u, jsFalsyStr head = true →
      (checkStaleness s head u).warned = false) ∧
    (∀ s head u, s.indexedAtCommit = head →
      (checkStaleness s head u).warned = false) ∧
    (∀ s head u, (checkStaleness s head u).warned = true →
      ∀ k, (runChecks (checkStaleness s head u).state
        (List.replicate k head)).snd.all (fun w => w == false) = true) := by
  refine ⟨?_, ?_, ?_⟩
  · intro s head u h
    unfold checkStaleness
    by_cases h1 : (jsFalsyStr s.indexedAtCommit || jsFalsyStr s.repoRoot) = true
    · simp [h1]
    · simp [h1, h]
  · intro s head u h
    unfold checkStaleness
    by_cases h1 : (jsFalsyStr s.indexedAtCommit || jsFalsyStr s.repoRoot) = true
    · simp [h1]
    · by_cases h2 : jsFalsyStr head = true
      · simp [h1, h2]
      · by_cases h3 : (s.stalenessWarnedForHead == head) = true
        · simp [h1, h2, h3]
        · have h4 : isIndexStale s.indexedAtCommit head = false := by
            unfold isIndexStale
            subst h
            simp
          simp [h1, h2, h3, h4]
  · intro s head u hwarn k
    exact runChecks_no_warn head k _ (checkStaleness_warned_sets s head u hwarn)

/-- Witness for the amended C6 at concrete states. -/
theorem checkStaleness_amended_witness :
    (checkStaleness ⟨some "C", some "/r", none⟩ none true).warned = false ∧
    (checkStaleness ⟨some "C", some "/r", none⟩ (some "C") true).warned = false ∧
    (runChecks (checkStaleness ⟨some "C", some "/r", none⟩ (some "A") true).state
      (List.replicate 2 (some "A"))).snd.all (fun w => w == false) = true := by
  refine ⟨checkStaleness_amended.1 ⟨some "C", some "/r", none⟩ none true rfl,
    checkStaleness_amended.2.1 ⟨some "C", some "/r", none⟩ (some "C") true rfl,
    checkStaleness_amended.2.2 ⟨some "C", some "/r", none⟩ (some "A") true (by decide) 2⟩

/-! ## C7 — declined confirmation -/

/-- C7: with confirmation required and the confirm callback answering
`false`, `ensureIndexed` fails with "Indexing cancelled by user", never
invokes the index function, does not mark the state indexed, and leaves the
in-flight promise cleared, so the very next call can run (and, on a
successful index outcome, complete) a fresh attempt; and with confirmation
not required the confirm callback is never invoked. -/
theorem ensureIndexedRun_cancel (st : EnsState) (indexResult : Except String Unit)
    (force : Bool) (h1 : st.indexed = false) (h2 : st.indexPromise = none) :
    (ensureIndexedRun st true false indexResult force).result =
      .error "Indexing cancelled by user" ∧
    (ensureIndexedRun st true false indexResult force).confirmCalled = true ∧
    (ensureIndexedRun st true false indexResult force).indexCalled = false ∧
    (ensureIndexedRun st true false indexResult force).state.indexed = false ∧
    (ensureIndexedRun st true false indexResult force).state.indexPromise = none ∧
    (∀ res2, (ensureIndexedRun (ensureIndexedRun st true false indexResult force).state
      true true res2 false).indexCalled = true) ∧
    (ensureIndexedRun (ensureIndexedRun st true false indexResult force).state
      true true (.ok ()) false).state.indexed = true ∧
    (∀ st2 ca res f, (ensureIndexedRun st2 false ca res f).confirmCalled = false) := by
  have hrun : ensureIndexedRun st true false indexResult force =
      ⟨.error "Indexing cancelled by user", { st with indexPromise := none },
        true, false⟩ := by
    unfold ensureIndexedRun
    rw [h1, h2]
    rfl
  refine ⟨by rw [hrun], by rw [hrun], by rw [hrun], by rw [hrun]; exact h1,
    by rw [hrun], ?_, ?_, ?_⟩
  · intro res2
    rw [hrun]
    show (ensureIndexedRun { st with indexPromise := none } true true res2 false).indexCalled = true
    unfold ensureIndexedRun
    simp only [h1]
    cases res2 <;> rfl
  · rw [hrun]
    show (ensureIndexedRun { st with indexPromise := none }
      true true (.ok ()) false).state.indexed = true
    unfold ensureIndexedRun
    simp only [h1]
    rfl
  · intro st2 ca res f
    unfold ensureIndexedRun
    by_cases hi : (st2.indexed && !f) = true
    · simp [hi]
    · simp only [Bool.not_eq_true] at hi
      cases hp : st2.indexPromise with
      | some prior => simp [hi, hp]
      | none =>
        by_cases hc : (false && !ca) = true
        · simp at hc
        · cases res <;> simp [hi, hp]

/-- Witness for C7 at the fresh initial state. -/
theorem ensureIndexedRun_cancel_witness :
    (ensureIndexedRun ⟨false, none⟩ true false (.ok ()) false).result =
      .error "Indexing cancelled by user" ∧
    (ensureIndexedRun ⟨false, none⟩ true false (.ok ()) false).indexCalled = false ∧
    (ensureIndexedRun (ensureIndexedRun ⟨false, none⟩ true false (.ok ()) false).state
      true true (.ok ()) false).state.indexed = true := by
  have h := ensureIndexedRun_cancel ⟨false, none⟩ (.ok ()) false rfl rfl
  exact ⟨h.1, h.2.2.1, h.2.2.2.2.2.2.1⟩

/-! ## C1 — transport-error classification in `callBudgeted` -/

/-- C1: when the underlying `callTool` invocation fails with an error whose
code is in the known transport set or whose message matches the broken-pipe
pattern, `callBudgeted` invokes the transport-error callback, skips
`listTools` entirely, and returns `ok: false` with the budget-truncated
error message (formatted with an empty available-tools list). -/
theorem callBudgeted_transport (toolName : String) (maxChars : Int) (e : JsErr)
    (listToolsResult : Except JsErr (List String))
    (h : (∃ c, e.code = some c ∧ c ∈ transportCodes) ∨
      brokenPipeMsg e.message = true) :
    (callBudgeted toolName maxChars (.error e) listToolsResult).transportCbInvoked
        = true ∧
    (callBudgeted toolName maxChars (.error e) listToolsResult).listToolsInvoked
        = false ∧
    (callBudgeted toolName maxChars (.error e) listToolsResult).ok = false ∧
    (callBudgeted toolName maxChars (.error e) listToolsResult).text =
      truncateChars (formatToolError toolName [] e.message) maxChars := by
  have ht : isTransportError e = true := by
    unfold isTransportError
    rcases h with ⟨c, hc, hmem⟩ | hmsg
    · rw [hc]
      simp [hmem]
    · simp [hmsg]
  unfold callBudgeted
  simp [ht]

/-- Witness for C1 on an `EPIPE` failure. -/
theorem callBudgeted_transport_witness :
    (callBudgeted "search" 5000 (.error ⟨some "EPIPE", "write EPIPE"⟩)
      (.ok ["search"])).transportCbInvoked = true ∧
    (callBudgeted "search" 5000 (.error ⟨some "EPIPE", "write EPIPE"⟩)
      (.ok ["search"])).listToolsInvoked = false ∧
    (callBudgeted "search" 5000 (.error ⟨some "EPIPE", "write EPIPE"⟩)
      (.ok ["search"])).ok = false ∧
    (callBudgeted "search" 5000 (.error ⟨some "EPIPE", "write EPIPE"⟩)
      (.ok ["search"])).text =
      truncateChars (formatToolError "search" [] "write EPIPE") 5000 :=
  callBudgeted_transport "search" 5000 ⟨some "EPIPE", "write EPIPE"⟩
    (.ok ["search"]) (Or.inl ⟨"EPIPE", rfl, by decide⟩)

/-! ## C8 — two-pass eviction -/

lemma passAge_mem (now maxAgeMs : Int) :
    ∀ (l : List FileInfo) (f : FileInfo), f ∈ l →
      now - f.mtimeMs > maxAgeMs → f.unlinkOk = true →
      f.name ∈ (passAge now maxAgeMs l).2.2.1 := by
  intro l
  induction l with
  | nil => intro f hf; cases hf
  | cons g rest ih =>
    intro f hf hold hok
    rcases List.mem_cons.mp hf with hfg | hfr
    · subst hfg
      unfold passAge
      rw [if_pos hold, if_pos hok]
      exact List.mem_cons_self _ _
    · have hrec := ih f hfr hold hok
      unfold passAge
      by_cases h1 : now - g.mtimeMs > maxAgeMs
      · rw [if_pos h1]
        by_cases h2 : g.unlinkOk = true
        · rw [if_pos h2]
          exact List.mem_cons_of_mem _ hrec
        · rw [if_neg h2]
          exact hrec
      · rw [if_neg h1]
        exact hrec

lemma evictBlobs_ok_def (entries : List FileEntry)
    (now maxAgeDays maxSizeBytes : Int) :
    evictBlobs (.ok entries) now maxAgeDays maxSizeBytes =
      if entries.isEmpty then .ok ⟨0, 0, []⟩
      else
        let maxAgeMs := maxAgeDays * 86400000
        let files := regularFiles entries
        let p1 := passAge now maxAgeMs files
        let survivors := sortByMtime p1.2.2.2
        let total : Int := (survivors.map (fun f => (f.size : Int))).sum
        let p2 := passSize maxSizeBytes total survivors
        .ok ⟨p1.1 + p2.1, p1.2.1 + p2.2.1, p1.2.2.1 ++ p2.2.2⟩ := rfl

lemma evictBlobs_error_def (e : FsError) (now maxAgeDays maxSizeBytes : Int) :
    evictBlobs (.error e) now maxAgeDays maxSizeBytes =
      if e.code == some "ENOENT" then .ok ⟨0, 0, []⟩ else .error e := rfl

lemma regularFiles_ne_nil (entries : List FileEntry) (f : FileInfo)
    (hf : f ∈ regularFiles entries) : entries.isEmpty = false := by
  cases entries with
  | nil => cases hf
  | cons a l => rfl

/-- C8: `evictBlobs` first deletes every regular file older than
`maxAgeDays` (tolerating unlink failures), then removes survivors
oldest-first while the total exceeds `maxSizeBytes`, reporting combined
counts. In particular: every readable regular file older than the age
cutoff whose unlink succeeds ends up removed; three equal-size files aged
1/2/3 days with a size budget admitting two lose exactly the 3-day-old one,
with one removal reported; and under a 7-day cutoff a file aged 8 days is
removed while one aged 1 day survives. -/
theorem evictBlobs_spec :
    (∀ (entries : List FileEntry) (now maxAgeDays maxSizeBytes : Int)
      (f : FileInfo), f ∈ regularFiles entries →
      now - f.mtimeMs > maxAgeDays * 86400000 → f.unlinkOk = true →
      ∃ r, evictBlobs (.ok entries) now maxAgeDays maxSizeBytes = .ok r ∧
        f.name ∈ r.removedNames) ∧
    evictBlobs (.ok
        [⟨"a", .ok ⟨true, 10 * 86400000 - 86400000, 100⟩, true⟩,
         ⟨"b", .ok ⟨true, 10 * 86400000 - 2 * 86400000, 100⟩, true⟩,
         ⟨"c", .ok ⟨true, 10 * 86400000 - 3 * 86400000, 100⟩, true⟩])
      (10 * 86400000) 30 250 = .ok ⟨1, 100, ["c"]⟩ ∧
    evictBlobs (.ok
        [⟨"d", .ok ⟨true, 10 * 86400000 - 8 * 86400000, 50⟩, true⟩,
         ⟨"e", .ok ⟨true, 10 * 86400000 - 86400000, 60⟩, true⟩])
      (10 * 86400000) 7 1000000 = .ok ⟨1, 50, ["d"]⟩ := by
  refine ⟨?_, by decide, by decide⟩
  intro entries now maxAgeDays maxSizeBytes f hf hold hok
  have hne := regularFiles_ne_nil entries f hf
  rw [evictBlobs_ok_def, hne]
  simp only [Bool.false_eq_true, if_false]
  refine ⟨_, rfl, ?_⟩
  exact List.mem_append_left _ (passAge_mem now _ (regularFiles entries) f hf hold hok)

/-- Witness for C8's general pass-1 clause at a concrete directory. -/
theorem evictBlobs_spec_witness :
    ∃ r, evictBlobs (.ok [⟨"old", .ok ⟨true, 0, 7⟩, true⟩]) (10 * 86400000) 7 99 =
      .ok r ∧ "old" ∈ r.removedNames := by
  have h := evictBlobs_spec.1 [⟨"old", .ok ⟨true, 0, 7⟩, true⟩] (10 * 86400000) 7 99
    ⟨"old", 0, 7, true⟩ (by decide) (by decide) rfl
  exact h

/-! ## C9 — eviction error containment -/

/-- C9, counterexample: a directory listing that fails with a code other
than `ENOENT` (here `EACCES`) is rethrown by `evictBlobs` rather than
returned as a `{removedCount, removedBytes}` result, so `evictBlobs` does
not return a result for every input. -/
theorem evictBlobs_counterexample :
    evictBlobs (.error ⟨some "EACCES", "permission denied"⟩) 0 7 100 =
      .error ⟨some "EACCES", "permission denied"⟩ := rfl

/-- C9, amended: `evictBlobs` swallows all per-entry failures — a missing
directory (`ENOENT`) yields `{0, 0}`, an unreadable entry is skipped, a
failed unlink leaves the file in place — and any successful directory
listing produces a normal result; a directory-listing failure other than
`ENOENT`, however, is rethrown and is caught by the `/kota evict-blobs`
command, which surfaces it as a warning notification instead of letting it
propagate. -/
theorem evictBlobs_amended :
    (∀ (now maxAgeDays maxSizeBytes : Int) (msg : String),
      evictBlobs (.error ⟨some "ENOENT", msg⟩) now maxAgeDays maxSizeBytes =
        .ok ⟨0, 0, []⟩) ∧
    (∀ (entries : List FileEntry) (now maxAgeDays maxSizeBytes : Int),
      ∃ r, evictBlobs (.ok entries) now maxAgeDays maxSizeBytes = .ok r) ∧
    evictBlobs (.ok [⟨"f", .ok ⟨true, 0, 10⟩, false⟩]) (10 * 86400000) 7 1000000 =
      .ok ⟨0, 0, []⟩ ∧
    (∀ (e : FsError) (now maxAgeDays maxSizeBytes : Int),
      (e.code == some "ENOENT") = false →
      evictBlobsCommandNotify (.error e) now maxAgeDays maxSizeBytes =
        "Blob eviction failed: " ++ e.message) := by
  refine ⟨fun now a s msg => rfl, ?_, by decide, ?_⟩
  · intro entries now a s
    rw [evictBlobs_ok_def]
    by_cases h : entries.isEmpty
    · rw [if_pos h]
      exact ⟨_, rfl⟩
    · rw [if_neg h]
      exact ⟨_, rfl⟩
  · intro e now a s h
    unfold evictBlobsCommandNotify
    rw [evictBlobs_error_def, h]
    rfl

/-- Witness for the amended C9 at concrete inputs. -/
theorem evictBlobs_amended_witness :
    (∃ r, evictBlobs (.ok [⟨"g", .error (), true⟩]) 0 7 100 = .ok r) ∧
    evictBlobsCommandNotify (.error ⟨some "EACCES", "permission denied"⟩) 0 7 100 =
      "Blob eviction failed: " ++ "permission denied" := by
  refine ⟨evictBlobs_amended.2.1 [⟨"g", .error (), true⟩] 0 7 100, ?_⟩
  exact evictBlobs_amended.2.2.2 ⟨some "EACCES", "permission denied"⟩ 0 7 100 (by decide)

/-! ## C2 — concurrent ensure-indexed dedupe -/

lemma set_ne_nil (l : List PC) (i : Nat) (v : PC) (h : l ≠ []) :
    l.set i v ≠ [] := by
  cases l with
  | nil => exact absurd rfl h
  | cons a t => cases i <;> simp

lemma invPre_init (n : Nat) (hn : 1 ≤ n) : InvPre (initConc n) := by
  refine ⟨?_, rfl, rfl, Or.inl ⟨rfl, rfl, ?_⟩⟩
  · show List.replicate n PC.start ≠ []
    cases n with
    | zero => omega
    | succ k => simp
  · intro pc hpc
    exact List.eq_of_mem_replicate hpc

lemma invPre_step (c c2 : Conc) (i : Nat) (hinv : InvPre c)
    (hstep : execAct c (Act.step i) = some c2) : InvPre c2 := by
  obtain ⟨hnil, hidx, hset, hdisj⟩ := hinv
  simp only [execAct] at hstep
  split at hstep
  · exact Option.noConfusion hstep
  · rw [hidx] at hstep
    simp only [Bool.false_eq_true, if_false] at hstep
    split at hstep
    · rename_i p hinf
      cases hstep
      rcases hdisj with ⟨hc0, hnone, hall⟩ | ⟨hc1, hsome, hall⟩
      · rw [hnone] at hinf
        exact Option.noConfusion hinf
      · have hp0 : p = 0 := by
          rw [hsome] at hinf
          exact (Option.some.inj hinf).symm
        subst hp0
        refine ⟨set_ne_nil _ _ _ hnil, rfl, hset, Or.inr ⟨hc1, hsome, ?_⟩⟩
        intro pc2 hpc2
        rcases List.mem_or_eq_of_mem_set hpc2 with hmem | heq2
        · exact hall pc2 hmem
        · exact Or.inr ⟨false, heq2⟩
    · rename_i hinf
      cases hstep
      rcases hdisj with ⟨hc0, hnone, hall⟩ | ⟨hc1, hsome, hall⟩
      · refine ⟨set_ne_nil _ _ _ hnil, rfl, hset,
          Or.inr ⟨by rw [hc0], by rw [hc0], ?_⟩⟩
        intro pc2 hpc2
        rcases List.mem_or_eq_of_mem_set hpc2 with hmem | heq2
        · exact Or.inl (hall pc2 hmem)
        · exact Or.inr ⟨true, by rw [heq2, hc0]⟩
      · rw [hsome] at hinf
        exact Option.noConfusion hinf
  · rename_i p b heq
    rw [hset] at hstep
    simp [List.lookup] at hstep
  · exact Option.noConfusion hstep

lemma invPre_trace : ∀ (acts : List Act) (c c2 : Conc), InvPre c →
    execTrace c acts = some c2 → noSettle acts = true → InvPre c2 := by
  intro acts
  induction acts with
  | nil =>
    intro c c2 hinv htr _
    cases htr
    exact hinv
  | cons a rest ih =>
    intro c c2 hinv htr hns
    unfold execTrace at htr
    cases hstep : execAct c a with
    | none => rw [hstep] at htr; exact absurd htr (by simp)
    | some cm =>
      rw [hstep] at htr
      have hns2 : noSettle rest = true := by
        unfold noSettle at hns ⊢
        rw [List.all_cons, Bool.and_eq_true] at hns
        exact hns.2
      cases a with
      | settle p o =>
        unfold noSettle at hns
        rw [List.all_cons, Bool.and_eq_true] at hns
        exact absurd hns.1 (by simp)
      | step i =>
        exact ih cm c2 (invPre_step c cm i hinv hstep) htr hns2

lemma invPost_step (c c2 : Conc) (a : Act) (hinv : InvPost c)
    (hstep : execAct c a = some c2) : InvPost c2 := by
  obtain ⟨hnil, hc1, hsettled, hall⟩ := hinv
  cases a with
  | step i =>
    simp only [execAct] at hstep
    split at hstep
    · exact Option.noConfusion hstep
    · rename_i heq
      have hmem := List.get?_mem heq
      rcases hall _ hmem with ⟨b, hb⟩ | ⟨o, ho, _⟩
      · exact absurd hb (by simp)
      · exact absurd ho (by simp)
    · rename_i p b heq
      have hmem := List.get?_mem heq
      have hp0 : p = 0 := by
        rcases hall _ hmem with ⟨b2, hb2⟩ | ⟨o, ho, _⟩
        · injection hb2 with h1 h2
        · exact absurd ho (by simp)
      subst hp0
      split at hstep
      · exact Option.noConfusion hstep
      · rename_i o hlk
        cases hstep
        refine ⟨set_ne_nil _ _ _ hnil, hc1, hsettled, ?_⟩
        intro pc2 hpc2
        rcases List.mem_or_eq_of_mem_set hpc2 with hmem2 | heq2
        · exact hall pc2 hmem2
        · exact Or.inr ⟨o, heq2, hlk⟩
    · exact Option.noConfusion hstep
  | settle p o =>
    simp only [execAct] at hstep
    split at hstep
    · rename_i hcond
      rw [Bool.and_eq_true] at hcond
      have hplt : p < c.created := of_decide_eq_true hcond.1
      have hnonelk : (List.lookup p c.settled).isNone = true := hcond.2
      cases hstep
      have hp0 : p = 0 := by omega
      subst hp0
      have hempty : c.settled = [] := by
        rcases hsettled with h | ⟨o2, h⟩
        · exact h
        · rw [h] at hnonelk
          simp [List.lookup] at hnonelk
      refine ⟨hnil, hc1, Or.inr ⟨o, by rw [hempty]⟩, ?_⟩
      intro pc2 hpc2
      rcases hall pc2 hpc2 with ⟨b, hb⟩ | ⟨o2, ho2, hlk2⟩
      · exact Or.inl ⟨b, hb⟩
      · rw [hempty] at hlk2
        exact absurd hlk2 (by simp [List.lookup])
    · exact Option.noConfusion hstep

lemma invPost_trace : ∀ (acts : List Act) (c c2 : Conc), InvPost c →
    execTrace c acts = some c2 → InvPost c2 := by
  intro acts
  induction acts with
  | nil =>
    intro c c2 hinv htr
    cases htr
    exact hinv
  | cons a rest ih =>
    intro c c2 hinv htr
    unfold execTrace at htr
    cases hstep : execAct c a with
    | none => rw [hstep] at htr; exact absurd htr (by simp)
    | some cm =>
      rw [hstep] at htr
      exact ih cm c2 (invPost_step c cm a hinv hstep) htr

/-- C2: for any interleaving in which `n ≥ 2` callers all enter
`ensureIndexed` against the same not-yet-indexed shared state before any
indexing run completes, exactly one run is ever launched (the supplied
index function is invoked exactly once); every caller that found the
in-flight promise waits on that same promise `0`; and when all callers have
returned they all observe one and the same outcome. -/
theorem ensureIndexed_dedupe (n : Nat) (pre post : List Act) (cMid cEnd : Conc)
    (hn : 2 ≤ n)
    (hpre : execTrace (initConc n) pre = some cMid)
    (hns : noSettle pre = true)
    (hstarted : allStarted cMid = true)
    (hpost : execTrace cMid post = some cEnd)
    (hdone : allDone cEnd = true) :
    cEnd.created = 1 ∧
    (∀ pc ∈ cMid.pcs, ∃ b, pc = PC.waiting 0 b) ∧
    (∃ o, ∀ pc ∈ cEnd.pcs, pc = PC.done o) := by
  have hInvMid := invPre_trace pre (initConc n) cMid
    (invPre_init n (by omega)) hpre hns
  obtain ⟨hnilM, hidxM, hsetM, hdisjM⟩ := hInvMid
  have hstar : ∀ pc ∈ cMid.pcs, pc ≠ PC.start := by
    intro pc hpc
    have h := (List.all_eq_true.mp hstarted) pc hpc
    simpa using h
  rcases hdisjM with ⟨hc0, hnone, hall⟩ | ⟨hc1, hsome, hall⟩
  · obtain ⟨pc, hpc⟩ := List.exists_mem_of_ne_nil cMid.pcs hnilM
    exact absurd (hall pc hpc) (hstar pc hpc)
  · have hwaiting : ∀ pc ∈ cMid.pcs, ∃ b, pc = PC.waiting 0 b := by
      intro pc hpc
      rcases hall pc hpc with hs | hw
      · exact absurd hs (hstar pc hpc)
      · exact hw
    have hInvPostMid : InvPost cMid := by
      refine ⟨hnilM, hc1, Or.inl hsetM, ?_⟩
      intro pc hpc
      exact Or.inl (hwaiting pc hpc)
    have hInvEnd := invPost_trace post cMid cEnd hInvPostMid hpost
    obtain ⟨hnilE, hc1E, hsettledE, hallE⟩ := hInvEnd
    refine ⟨hc1E, hwaiting, ?_⟩
    have hdoneE : ∀ pc ∈ cEnd.pcs,
        ∃ o, pc = PC.done o ∧ List.lookup 0 cEnd.settled = some o := by
      intro pc hpc
      rcases hallE pc hpc with ⟨b, hb⟩ | h
      · have h2 := (List.all_eq_true.mp hdone) pc hpc
        rw [hb] at h2
        simp at h2
      · exact h
    obtain ⟨pc0, hpc0⟩ := List.exists_mem_of_ne_nil cEnd.pcs hnilE
    obtain ⟨o0, ho0, hlk0⟩ := hdoneE pc0 hpc0
    refine ⟨o0, ?_⟩
    intro pc hpc
    obtain ⟨o, ho, hlk⟩ := hdoneE pc hpc
    rw [ho]
    have hoo : some o = some o0 := by rw [← hlk, ← hlk0]
    rw [Option.some.inj hoo]

/-- Witness for C2: two callers, a schedule in which both enter before the
single run settles successfully, and both finish with the success outcome. -/
theorem ensureIndexed_dedupe_witness :
    (⟨[PC.done Outcome.success, PC.done Outcome.success], true, none,
      [(0, Outcome.success)], 1⟩ : Conc).created = 1 ∧
    (∀ pc ∈ (⟨[PC.waiting 0 true, PC.waiting 0 false], false, some 0, [], 1⟩ :
        Conc).pcs, ∃ b, pc = PC.waiting 0 b) ∧
    (∃ o, ∀ pc ∈ (⟨[PC.done Outcome.success, PC.done Outcome.success], true,
        none, [(0, Outcome.success)], 1⟩ : Conc).pcs, pc = PC.done o) :=
  ensureIndexed_dedupe 2 [Act.step 0, Act.step 1]
    [Act.settle 0 Outcome.success, Act.step 0, Act.step 1]
    ⟨[PC.waiting 0 true, PC.waiting 0 false], false, some 0, [], 1⟩
    ⟨[PC.done Outcome.success, PC.done Outcome.success], true, none,
      [(0, Outcome.success)], 1⟩
    (by decide) (by decide) (by decide) (by decide) (by decide) (by decide)
